import Mathlib

/-!
Verification of the tinypng-compress batch-compression tool.

Shallow embedding of the core modules:
  * `src/compression/index.js`   — `compressFile`, `compressWithRetry`
  * `src/compression/batchProcessor.js` — `Semaphore`, `CircuitBreaker`,
    `RateMonitor.getOptimalDelay`, `processFileWithConcurrency`
  * `src/commands/compressDir.js` — dispatch slicing against quota
  * `src/utils/apiKeySelector.js` — `selectBestApiKey`
  * `src/utils/fileOps.js`        — `backupFile`

Machine integers of the source are modelled as `Nat`/`Int`; the file system
is a partial map from paths to byte lists; the remote tinify service is an
oracle parameter supplying each call's outcome.
-/

namespace TinyPNG

/-- File contents: a list of bytes. -/
abbrev Bytes := List Nat

/-- A file system: a partial map from path strings to file contents. -/
abbrev FS := String → Option Bytes

/-- Write (or remove, with `none`) the entry of one path. -/
def fsSet (fs : FS) (p : String) (v : Option Bytes) : FS :=
  fun q => if q = p then v else fs q

/-! ### The tinify request pipeline (`compressFile`, src/compression/index.js lines 16-45)

The JS builds a `processedSource` from `source = tinify.fromFile(inputPath)`:
`if (options.resize) processedSource = source.resize(options.resize);`
`if (options.convert) ... processedSource = source.convert(convertOptions);`
`if (options.preserveMetadata) processedSource = processedSource.preserve(...)`.
Both `resize` and `convert` are chained onto `source`, not onto the previous
`processedSource`; the pipeline value records exactly which operations the
request sent to the service is composed of. -/

/-- A tinify source pipeline: the chain of operations applied to the
uploaded original before the result is downloaded. -/
inductive Pipeline where
  | base : Pipeline
  | resized (parent : Pipeline) (spec : String) : Pipeline
  | converted (parent : Pipeline) (mimeType : String) (background : Option String) : Pipeline
  | preserved (parent : Pipeline) : Pipeline
deriving DecidableEq, Repr

/-- Options accepted by `compressFile`. -/
structure CompressOptions where
  resize : Option String := none
  convert : Option String := none
  background : Option String := none
  preserveMetadata : Bool := false

/-- `formatMap` of `compressFile`: short format names to MIME types; an
unknown name falls through to the raw option string (`|| options.convert`). -/
def formatMap (fmt : String) : String :=
  if fmt = "png" then "image/png"
  else if fmt = "jpg" then "image/jpeg"
  else if fmt = "jpeg" then "image/jpeg"
  else if fmt = "webp" then "image/webp"
  else if fmt = "avif" then "image/avif"
  else fmt

/-- The `processedSource` built by `compressFile` from its options
(src/compression/index.js lines 18-45). -/
def buildPipeline (options : CompressOptions) : Pipeline :=
  let source := Pipeline.base
  let processed := source
  let processed :=
    match options.resize with
    | some spec => Pipeline.resized source spec
    | none => processed
  let processed :=
    match options.convert with
    | some fmt => Pipeline.converted source (formatMap fmt.toLower) options.background
    | none => processed
  let processed :=
    if options.preserveMetadata then Pipeline.preserved processed else processed
  processed

/-- Does the pipeline contain a resize step? -/
def Pipeline.hasResize : Pipeline → Bool
  | .base => false
  | .resized _ _ => true
  | .converted parent _ _ => parent.hasResize
  | .preserved parent => parent.hasResize

/-- Does the pipeline contain a convert step? -/
def Pipeline.hasConvert : Pipeline → Bool
  | .base => false
  | .resized parent _ => parent.hasConvert
  | .converted _ _ _ => true
  | .preserved parent => parent.hasConvert

/-! ### File-level behaviour of `compressFile` (src/compression/index.js lines 47-73)

`compressFile` writes the transformed result to `inputPath + '.tmp'`, then
`fs.move`s the temp file onto `inputPath` (atomic rename, `overwrite: true`).
The `catch` block unlinks the temp file when it exists and rethrows.

The remote call plus download (`processedSource.toFile(tempPath)`) is an
oracle: it either succeeds, leaving the full result at the temp path, or
fails, leaving arbitrary residue there (`none` = temp path untouched or
absent, `some b` = a partial write of `b`). -/

/-- Outcome of `processedSource.toFile(tempPath)`. -/
inductive ToFileOutcome where
  | ok (result : Bytes)
  /-- The call threw; `residue` is what the failed attempt left at the
  temp path (`none` means the attempt did not create the file). -/
  | err (message : String) (residue : Option Bytes)

/-- Result of one `compressFile` run on the file-system model: the thrown
error or the result bytes, the intermediate file system right after the
temp write (before the move), and the final file system. -/
structure CompressRun where
  result : Except String Bytes
  afterTempWrite : FS
  final : FS

/-- File-system behaviour of `compressFile` (src/compression/index.js
lines 47-73): write the result to `tempPath`, then move it onto
`inputPath`; on error, unlink the temp file if present and rethrow. -/
def compressFileFS (fs : FS) (inputPath : String) (outcome : ToFileOutcome) :
    CompressRun :=
  let tempPath := inputPath ++ ".tmp"
  match outcome with
  | .ok result =>
      let fs1 := fsSet fs tempPath (some result)
      let fs2 := fsSet (fsSet fs1 inputPath (some result)) tempPath none
      { result := .ok result, afterTempWrite := fs1, final := fs2 }
  | .err message residue =>
      let fs1 :=
        match residue with
        | some b => fsSet fs tempPath (some b)
        | none => fs
      let fs2 := fsSet fs1 tempPath none
      { result := .error message, afterTempWrite := fs1, final := fs2 }


/-! ### Semaphore (src/compression/batchProcessor.js lines 314-340)

`current` counts the tasks currently holding a slot (granted and not yet
released); `queue` counts suspended waiters. `acquire()` grants immediately
when `current < maxConcurrent`, otherwise enqueues the caller; `release()`
decrements and, when a waiter is queued, re-increments and resolves it
(hand-off). `current` is an `Int` because the JS decrement is unguarded. -/

structure Semaphore where
  maxConcurrent : Nat
  current : Int
  queue : Nat

/-- `new Semaphore(maxConcurrent)`. -/
def Semaphore.init (maxConcurrent : Nat) : Semaphore :=
  { maxConcurrent := maxConcurrent, current := 0, queue := 0 }

/-- `acquire()`: grant a slot or enqueue the caller. -/
def Semaphore.acquire (s : Semaphore) : Semaphore :=
  if s.current < s.maxConcurrent then { s with current := s.current + 1 }
  else { s with queue := s.queue + 1 }

/-- `release()`: free the slot; if a waiter is queued, hand the slot to it. -/
def Semaphore.release (s : Semaphore) : Semaphore :=
  let s1 : Semaphore := { s with current := s.current - 1 }
  if s1.queue > 0 then
    { s1 with current := s1.current + 1, queue := s1.queue - 1 }
  else s1

/-- One semaphore operation. -/
inductive SemOp where
  | acq
  | rel
deriving DecidableEq, Repr

def Semaphore.step (s : Semaphore) : SemOp → Semaphore
  | .acq => s.acquire
  | .rel => s.release

/-- Run a sequence of operations from a state. -/
def Semaphore.run (s : Semaphore) (ops : List SemOp) : Semaphore :=
  ops.foldl Semaphore.step s

/-- `processFileWithConcurrency` (src/compression/batchProcessor.js lines
201-271) wraps its body in `try { ... } catch (error) { ...; throw error }
finally { ...; this.semaphore.release(); }` after `await
this.semaphore.acquire()`: the semaphore operations it performs are an
acquire, then — on the success exit and on the error exit alike — exactly
one release, and the error is rethrown. -/
def processFileSemOps (bodyOutcome : Except String Unit) :
    List SemOp × Except String Unit :=
  match bodyOutcome with
  | .ok a => ([SemOp.acq, SemOp.rel], .ok a)
  | .error e => ([SemOp.acq, SemOp.rel], .error e)

/-! ### CircuitBreaker (src/compression/batchProcessor.js lines 429-466)

The JS constructor fixes `failureThreshold = 5`, `timeoutMs = 30000`,
`consecutiveFailures = 0`, `lastFailureTime = null`, `state = 'CLOSED'`.
`Date.now() - null` evaluates to `now - 0` in JS, which
`lastFailureTime.getD 0` mirrors. `opened` models the string `'OPEN'`. -/

/-- The `state` string of the circuit breaker. -/
inductive CBState where
  | closed
  | opened
  | halfOpen
deriving DecidableEq, Repr

structure CircuitBreaker where
  failureThreshold : Nat
  timeoutMs : Int
  consecutiveFailures : Nat
  lastFailureTime : Option Int
  state : CBState
deriving DecidableEq, Repr

/-- `new CircuitBreaker()`. -/
def CircuitBreaker.init : CircuitBreaker :=
  { failureThreshold := 5, timeoutMs := 30000, consecutiveFailures := 0,
    lastFailureTime := none, state := .closed }

/-- `shouldBlock()`: in OPEN, transition to HALF_OPEN and pass once the
cooldown has strictly elapsed (`Date.now() - lastFailureTime > timeoutMs`),
block otherwise; in CLOSED and HALF_OPEN, pass. Returns the flag and the
(possibly updated) breaker. -/
def CircuitBreaker.shouldBlock (cb : CircuitBreaker) (now : Int) :
    Bool × CircuitBreaker :=
  match cb.state with
  | .opened =>
      if now - cb.lastFailureTime.getD 0 > cb.timeoutMs then
        (false, { cb with state := .halfOpen })
      else (true, cb)
  | _ => (false, cb)

/-- `recordSuccess()`: reset the failure count and force CLOSED. -/
def CircuitBreaker.recordSuccess (cb : CircuitBreaker) : CircuitBreaker :=
  { cb with consecutiveFailures := 0, state := .closed }

/-- `recordFailure()`: bump the count, stamp the time, open at threshold. -/
def CircuitBreaker.recordFailure (cb : CircuitBreaker) (now : Int) :
    CircuitBreaker :=
  let f := cb.consecutiveFailures + 1
  { cb with
    consecutiveFailures := f,
    lastFailureTime := some now,
    state := if f ≥ cb.failureThreshold then .opened else cb.state }

/-- One request through `processFileWithConcurrency` as it drives the
breaker (src/compression/batchProcessor.js lines 207-266): a blocked
request throws and the catch block records a failure; an admitted request
records success or failure according to its outcome `ok`. -/
def CircuitBreaker.request (cb : CircuitBreaker) (now : Int) (ok : Bool) :
    CircuitBreaker :=
  let r := cb.shouldBlock now
  if r.1 then r.2.recordFailure now
  else if ok then r.2.recordSuccess else r.2.recordFailure now

/-- Run a sequence of requests (time stamp, outcome) from a state. -/
def CircuitBreaker.runRequests (cb : CircuitBreaker) :
    List (Int × Bool) → CircuitBreaker
  | [] => cb
  | (now, ok) :: rest => (cb.request now ok).runRequests rest

/-- Structural invariant of reachable breaker states: away from CLOSED the
failure count has reached the threshold and a failure time is stamped. -/
def CircuitBreaker.Inv (cb : CircuitBreaker) : Prop :=
  cb.state ≠ .closed →
    cb.consecutiveFailures ≥ cb.failureThreshold ∧ cb.lastFailureTime ≠ none

/-! ### RateMonitor.getOptimalDelay (src/compression/batchProcessor.js lines 374-397)

`baseDelay = 100`, `maxDelay = 2000`. The average comparison
`avgResponseTime > 3000` is the exact integer comparison
`sum > 3000 * count` (sum and count are integers, the JS float division of
such magnitudes decides these inequalities identically). -/

/-- One `recordSuccess` sample: arrival time and measured latency. -/
structure RateResponse where
  time : Int
  responseTime : Nat
deriving DecidableEq, Repr

/-- `getOptimalDelay()` as a function of the clock and the recorded
failure/response windows. -/
def getOptimalDelay (now : Int) (failures : List Int)
    (responses : List RateResponse) : Nat :=
  let baseDelay := 100
  let maxDelay := 2000
  let recentFailures := failures.filter (fun t => now - t < 30000)
  if recentFailures.length = 0 then baseDelay
  else
    let recentResponses := responses.filter (fun r => now - r.time < 10000)
    if recentResponses.length = 0 then baseDelay * 2
    else
      let total := (recentResponses.map (fun r => r.responseTime)).sum
      if total > 3000 * recentResponses.length then
        min maxDelay (baseDelay * 3)
      else if total > 1500 * recentResponses.length then
        min maxDelay (baseDelay * 2)
      else baseDelay

/-! ### compressWithRetry (src/compression/index.js lines 76-92)

`for (attempt = 1; attempt <= maxRetries; attempt++)`: an
`AccountError`/`ClientError` is rethrown immediately, the last attempt
rethrows, otherwise `await delay(1000 * attempt)` and retry. The per-attempt
outcome of `compressFile` is the oracle `outcomes : Nat -> Except _ _`
indexed by the attempt number. `retryAux` runs the loop with
`remaining = maxRetries - attempt` as the structural measure, so
`remaining = 0` is the final attempt (`attempt === maxRetries`), where any
error — fatal or not — is rethrown with no further delay. The returned
list collects the awaited delays in order. -/

/-- The tinify error classes `compressWithRetry` distinguishes. -/
inductive TinifyError where
  | account (msg : String)
  | client (msg : String)
  | server (msg : String)
  | connection (msg : String)
deriving DecidableEq, Repr

/-- `err instanceof tinify.AccountError || err instanceof tinify.ClientError`:
the classes rethrown without retry. -/
def TinifyError.fatal : TinifyError → Bool
  | .account _ => true
  | .client _ => true
  | .server _ => false
  | .connection _ => false

/-- The retry loop from a given attempt with `remaining` later attempts. -/
def retryAux (outcomes : Nat → Except TinifyError Bytes) (attempt : Nat) :
    Nat → Except TinifyError Bytes × List Nat
  | 0 =>
      match outcomes attempt with
      | .ok b => (.ok b, [])
      | .error e => (.error e, [])
  | r + 1 =>
      match outcomes attempt with
      | .ok b => (.ok b, [])
      | .error e =>
          if e.fatal then (.error e, [])
          else
            let rest := retryAux outcomes (attempt + 1) r
            (rest.1, 1000 * attempt :: rest.2)

/-- `compressWithRetry(inputPath, apiKey, options, maxRetries)`: result and
awaited delays; `none` models the `undefined` a zero-iteration loop
returns. -/
def compressWithRetry (outcomes : Nat → Except TinifyError Bytes)
    (maxRetries : Nat) : Option (Except TinifyError Bytes × List Nat) :=
  if maxRetries = 0 then none
  else some (retryAux outcomes 1 (maxRetries - 1))

/-! ### compressDirCommand dispatch and batch quota recording

`compressDirCommand` (src/commands/compressDir.js lines 50-104) computes
`availableCompressions = 500 - apiKey.compressions_used` and dispatches
`filesToProcess = validFiles.slice(0, availableCompressions)`; files beyond
that slice are never handed to the batch processor and appear nowhere in
its results (only a console warning mentions their count).
`processFileWithConcurrency` (src/compression/batchProcessor.js lines
201-271) throws `new Error('API key reached monthly limit')` when
`results.finalCompressionCount >= 500`; the catch block records the file in
`results.failed` with `reason: error.name` — the generic `'Error'` — and a
successful transform is appended to `results.successful` with
`finalCompressionCount` set to the service-reported count. The model below
is the dispatch-order sequential view of that recording discipline; the
per-file transform outcome is the oracle `outcomes` (error case carries
`(message, name)`). -/

structure BatchResults where
  successful : List (String × Nat)
  failed : List (String × String)
  finalCompressionCount : Nat
deriving DecidableEq, Repr

/-- JS `Array.prototype.slice(0, end)` (negative `end` counts from the
end of the array). -/
def jsSlice0 {α : Type} (l : List α) (e : Int) : List α :=
  if 0 ≤ e then l.take e.toNat else l.take (l.length - e.natAbs)

/-- The dispatch list `validFiles.slice(0, availableCompressions)`. -/
def filesToProcess (validFiles : List String) (used : Nat) : List String :=
  jsSlice0 validFiles (500 - (used : Int))

/-- One `processFileWithConcurrency` call's effect on the shared `results`:
the quota guard throws (recorded as a failure named `'Error'`), otherwise
the transform outcome is recorded. -/
def processFileQuota (results : BatchResults) (file : String)
    (outcome : Except (String × String) Nat) : BatchResults :=
  if results.finalCompressionCount ≥ 500 then
    { results with failed := results.failed ++ [(file, "Error")] }
  else
    match outcome with
    | .ok newCount =>
        { results with
          successful := results.successful ++ [(file, newCount)],
          finalCompressionCount := newCount }
    | .error me =>
        { results with failed := results.failed ++ [(file, me.2)] }

/-- `processBatch` over a dispatch list, from a given `results` value. -/
def processBatchFrom (results : BatchResults) (files : List String)
    (outcomes : String → Except (String × String) Nat) : BatchResults :=
  files.foldl (fun r f => processFileQuota r f (outcomes f)) results

/-- `compressDirCommand`: slice the valid files against the remaining
quota, then run the batch with `finalCompressionCount` starting at
`apiKey.compressions_used`. -/
def compressDirRun (validFiles : List String) (used : Nat)
    (outcomes : String → Except (String × String) Nat) : BatchResults :=
  processBatchFrom
    { successful := [], failed := [], finalCompressionCount := used }
    (filesToProcess validFiles used) outcomes

/-- The file names recorded (as success or failure) in batch results. -/
def recordedNames (r : BatchResults) : List String :=
  r.successful.map Prod.fst ++ r.failed.map Prod.fst

/-! ### selectBestApiKey (src/utils/apiKeySelector.js lines 9-31)

`selectBestApiKey` first awaits `resetAllKeysIfNeeded(config)`
(src/config/index.js lines 136-162: zero the usage and set status
`'active'` on keys whose `last_reset` month or year differs from now),
then filters keys with `500 - compressions_used >= requiredCompressions &&
status !== 'limit_reached'`, returns `null` when none remain, and
otherwise sorts by descending remaining capacity and returns element `[0]`.
`Array.prototype.sort` is stable, so `[0]` is the earliest key attaining
the maximum remaining capacity — computed here directly by
`pickFirstMax`. -/

structure ApiKeyEntry where
  name : String
  compressions_used : Nat
  status : String
  lastResetMonth : Nat
  lastResetYear : Nat
deriving DecidableEq, Repr

/-- `isNewMonth(lastReset)`: month or year differ from now. -/
def isNewMonth (nowMonth nowYear : Nat) (k : ApiKeyEntry) : Bool :=
  nowMonth != k.lastResetMonth || nowYear != k.lastResetYear

/-- Per-key body of `resetAllKeysIfNeeded`. -/
def resetKeyIfNeeded (nowMonth nowYear : Nat) (k : ApiKeyEntry) : ApiKeyEntry :=
  if isNewMonth nowMonth nowYear k then
    { k with
      compressions_used := 0
      status := "active"
      lastResetMonth := nowMonth
      lastResetYear := nowYear }
  else k

/-- `resetAllKeysIfNeeded(config)` over the key list. -/
def resetAllKeysIfNeeded (nowMonth nowYear : Nat)
    (keys : List ApiKeyEntry) : List ApiKeyEntry :=
  keys.map (resetKeyIfNeeded nowMonth nowYear)

/-- `remaining = 500 - key.compressions_used`. -/
def remaining (k : ApiKeyEntry) : Int :=
  500 - (k.compressions_used : Int)

/-- The filter predicate of `selectBestApiKey`. -/
def qualifies (required : Nat) (k : ApiKeyEntry) : Bool :=
  remaining k ≥ (required : Int) && k.status != "limit_reached"

/-- The earliest list element attaining the maximum `remaining` — the
value of `availableKeys.sort(byRemainingDesc)[0]` under a stable sort. -/
def pickFirstMax : List ApiKeyEntry → Option ApiKeyEntry
  | [] => none
  | k :: ks =>
      match pickFirstMax ks with
      | none => some k
      | some b => if remaining b > remaining k then some b else some k

/-- `selectBestApiKey(config, requiredCompressions)`. -/
def selectBestApiKey (keys : List ApiKeyEntry) (nowMonth nowYear : Nat)
    (required : Nat) : Option ApiKeyEntry :=
  let availableKeys :=
    (resetAllKeysIfNeeded nowMonth nowYear keys).filter (qualifies required)
  pickFirstMax availableKeys

/-! ### backupFile (src/utils/fileOps.js lines 104-129)

The backup directory is a map from file names to stat metadata (size,
mtime). `fs.copy(..., { preserveTimestamps: true })` lands the source's
size and mtime at the destination name. `backupFile` checks the plain
backup name `basename(filePath)`; an identical existing backup (same size
and mtime) yields `{ skipped: true }` with no write; a differing existing
backup yields a copy at the versioned name
`basename_<timestamp><ext>`; no existing backup yields a copy at the
plain name. The source file name is handled as its `path.parse` parts
`base ++ ext`. -/

structure FileMeta where
  size : Nat
  mtime : Int
deriving DecidableEq, Repr

/-- Backup directory contents: file name to stat metadata. -/
abbrev BackupDir := String → Option FileMeta

/-- Write one entry of the backup directory. -/
def dirSet (d : BackupDir) (name : String) (v : Option FileMeta) : BackupDir :=
  fun q => if q = name then v else d q

/-- The result object of `backupFile`. -/
structure BackupResult where
  skipped : Bool
  versioned : Bool
  created : Bool
  path : String
deriving DecidableEq, Repr

/-- `backupFile(filePath, backupDirectory)`; `ts` is the ISO timestamp
with `:` and `.` replaced by `-`. Returns the result object and the
directory after the call. -/
def backupFile (dir : BackupDir) (srcMeta : FileMeta)
    (base ext ts : String) : BackupResult × BackupDir :=
  let fileName := base ++ ext
  let backupPath := fileName
  match dir backupPath with
  | some backupStat =>
      if srcMeta.size = backupStat.size ∧ srcMeta.mtime = backupStat.mtime then
        ({ skipped := true, versioned := false, created := false,
            path := backupPath }, dir)
      else
        let versionedName := base ++ "_" ++ ts ++ ext
        ({ skipped := false, versioned := true, created := true,
            path := versionedName },
          dirSet dir versionedName (some srcMeta))
  | none =>
      ({ skipped := false, versioned := false, created := true,
          path := fileName },
        dirSet dir fileName (some srcMeta))

end TinyPNG

namespace TinyPNG

/-! ## Claim theorems -/

theorem fsSet_same (fs : FS) (p : String) (v : Option Bytes) :
    fsSet fs p v p = v := by simp [fsSet]

theorem fsSet_other (fs : FS) (p q : String) (v : Option Bytes) (h : q ≠ p) :
    fsSet fs p v q = fs q := by simp [fsSet, h]

theorem temp_ne_input (inputPath : String) : inputPath ++ ".tmp" ≠ inputPath := by
  intro h
  have hlen := congrArg String.length h
  rw [String.length_append] at hlen
  have h4 : (".tmp").length = 4 := rfl
  omega

theorem input_ne_temp (inputPath : String) : inputPath ≠ inputPath ++ ".tmp" :=
  fun h => temp_ne_input inputPath h.symm


/-- Acquire preserves the slot bound and never grants beyond capacity. -/
theorem Semaphore.acquire_inv (s : Semaphore)
    (h : s.current ≤ (s.maxConcurrent : Int)) :
    s.acquire.current ≤ (s.acquire.maxConcurrent : Int) := by
  unfold Semaphore.acquire
  split <;> simp <;> omega

/-- Release preserves the slot bound (hand-off keeps the count unchanged). -/
theorem Semaphore.release_inv (s : Semaphore)
    (h : s.current ≤ (s.maxConcurrent : Int)) :
    s.release.current ≤ (s.release.maxConcurrent : Int) := by
  unfold Semaphore.release
  dsimp only
  split <;> simp <;> omega

theorem Semaphore.step_inv (s : Semaphore) (op : SemOp)
    (h : s.current ≤ (s.maxConcurrent : Int)) :
    (s.step op).current ≤ ((s.step op).maxConcurrent : Int) := by
  cases op with
  | acq => exact s.acquire_inv h
  | rel => exact s.release_inv h

theorem Semaphore.step_max (s : Semaphore) (op : SemOp) :
    (s.step op).maxConcurrent = s.maxConcurrent := by
  cases op <;>
    unfold Semaphore.step Semaphore.acquire Semaphore.release <;>
    dsimp only <;> split <;> rfl

theorem Semaphore.run_max (ops : List SemOp) (s : Semaphore) :
    (s.run ops).maxConcurrent = s.maxConcurrent := by
  induction ops generalizing s with
  | nil => rfl
  | cons op rest ih =>
      show ((s.step op).run rest).maxConcurrent = s.maxConcurrent
      rw [ih (s.step op), Semaphore.step_max]

theorem Semaphore.run_inv (ops : List SemOp) (s : Semaphore)
    (h : s.current ≤ (s.maxConcurrent : Int)) :
    (s.run ops).current ≤ ((s.run ops).maxConcurrent : Int) := by
  induction ops generalizing s with
  | nil => exact h
  | cons op rest ih =>
      exact ih (s.step op) (s.step_inv op h)

/-- C2: along every operation sequence from a fresh semaphore the number of
slot-holders (`current`) never exceeds `maxConcurrent` — so at most
`maxConcurrent` transform calls are in flight at any instant; `acquire` and
`release` each preserve the invariant `current ≤ maxConcurrent`; and
`processFileWithConcurrency` performs exactly one release after its acquire
on the success exit and on the error exit alike, rethrowing the error. -/
theorem semaphore_bounds_concurrency :
    (∀ (max : Nat) (ops : List SemOp),
        ((Semaphore.init max).run ops).current ≤ (max : Int)) ∧
    (∀ s : Semaphore, s.current ≤ (s.maxConcurrent : Int) →
        s.acquire.current ≤ (s.acquire.maxConcurrent : Int) ∧
        s.release.current ≤ (s.release.maxConcurrent : Int)) ∧
    (∀ outcome : Except String Unit,
        (processFileSemOps outcome).1 = [SemOp.acq, SemOp.rel] ∧
        (processFileSemOps outcome).2 = outcome) := by
  refine ⟨?_, ?_, ?_⟩
  · intro max ops
    have h := Semaphore.run_inv ops (Semaphore.init max)
      (by simp [Semaphore.init])
    rwa [Semaphore.run_max] at h
  · intro s h
    exact ⟨s.acquire_inv h, s.release_inv h⟩
  · intro outcome
    cases outcome <;> exact ⟨rfl, rfl⟩

/-- C2 witness: a concrete trace of five operations on a capacity-3
semaphore, a concrete held-slot state, and the error exit path. -/
theorem semaphore_bounds_concurrency_witness :
    ((Semaphore.init 3).run [SemOp.acq, SemOp.acq, SemOp.acq, SemOp.acq,
        SemOp.rel]).current ≤ ((3 : Nat) : Int) ∧
    ((⟨3, 2, 0⟩ : Semaphore).acquire.current ≤
        (((⟨3, 2, 0⟩ : Semaphore).acquire.maxConcurrent : Nat) : Int) ∧
      (⟨3, 2, 0⟩ : Semaphore).release.current ≤
        (((⟨3, 2, 0⟩ : Semaphore).release.maxConcurrent : Nat) : Int)) ∧
    (processFileSemOps (.error "ConnectionError")).1 = [SemOp.acq, SemOp.rel] := by
  refine ⟨semaphore_bounds_concurrency.1 3 _, ?_, ?_⟩
  · exact semaphore_bounds_concurrency.2.1 ⟨3, 2, 0⟩ (by decide)
  · exact (semaphore_bounds_concurrency.2.2 (.error "ConnectionError")).1

theorem CircuitBreaker.inv_init : CircuitBreaker.Inv .init :=
  fun h => absurd rfl h

theorem CircuitBreaker.inv_recordSuccess (cb : CircuitBreaker)
    (_h : cb.Inv) : cb.recordSuccess.Inv := by
  intro hs
  exact absurd rfl hs

theorem CircuitBreaker.inv_recordFailure (cb : CircuitBreaker) (now : Int)
    (h : cb.Inv) : (cb.recordFailure now).Inv := by
  intro hs
  unfold CircuitBreaker.recordFailure at hs ⊢
  dsimp only at hs ⊢
  split at hs
  · next hf => exact ⟨by simpa using hf, by simp⟩
  · next hf =>
      have := h hs
      refine ⟨by simp; omega, by simp⟩

theorem CircuitBreaker.inv_shouldBlock (cb : CircuitBreaker) (now : Int)
    (h : cb.Inv) : (cb.shouldBlock now).2.Inv := by
  unfold CircuitBreaker.shouldBlock
  cases hstate : cb.state with
  | opened =>
      dsimp only
      split
      · intro _
        simpa using h (by rw [hstate]; intro hc; cases hc)
      · intro hs
        exact h (by rw [hstate]; intro hc; cases hc)
  | closed => exact fun hs => h hs
  | halfOpen => exact fun hs => h hs

theorem CircuitBreaker.inv_request (cb : CircuitBreaker) (now : Int)
    (ok : Bool) (h : cb.Inv) : (cb.request now ok).Inv := by
  unfold CircuitBreaker.request
  dsimp only
  have h2 := cb.inv_shouldBlock now h
  split
  · exact (cb.shouldBlock now).2.inv_recordFailure now h2
  · split
    · exact (cb.shouldBlock now).2.inv_recordSuccess h2
    · exact (cb.shouldBlock now).2.inv_recordFailure now h2

theorem CircuitBreaker.inv_runRequests (cb : CircuitBreaker)
    (l : List (Int × Bool)) (h : cb.Inv) : (cb.runRequests l).Inv := by
  induction l generalizing cb with
  | nil => exact h
  | cons p rest ih =>
      exact ih (cb.request p.1 p.2) (cb.inv_request p.1 p.2 h)

theorem CircuitBreaker.semantics_aux (cb : CircuitBreaker) (h : cb.Inv)
    (now : Int) :
    ((cb.recordFailure now).state = .opened ↔
        cb.consecutiveFailures + 1 ≥ cb.failureThreshold) ∧
    ((cb.shouldBlock now).1 = true ↔
        cb.state = .opened ∧ now - cb.lastFailureTime.getD 0 ≤ cb.timeoutMs) ∧
    (cb.state = .halfOpen →
        (cb.shouldBlock now).1 = false ∧
        (cb.request now true).state = .closed ∧
        (cb.request now true).consecutiveFailures = 0 ∧
        (cb.request now false).state = .opened) ∧
    (∀ ok, cb.state ≠ .closed → (cb.request now ok).state = .closed →
        ok = true ∧ ((cb.shouldBlock now).2).state = .halfOpen ∧
        (cb.request now ok).consecutiveFailures = 0) := by
  refine ⟨?_, ?_, ?_, ?_⟩
  · unfold CircuitBreaker.recordFailure
    dsimp only
    split
    · next hf => exact ⟨fun _ => hf, fun _ => rfl⟩
    · next hf =>
        constructor
        · intro hstate
          have := (h (by rw [hstate]; intro hc; cases hc)).1
          omega
        · intro hf2
          exact absurd hf2 hf
  · unfold CircuitBreaker.shouldBlock
    cases hstate : cb.state with
    | opened =>
        dsimp only
        split
        · next ht => simp; omega
        · next ht => simp; omega
    | closed => simp
    | halfOpen => simp
  · intro hs
    have hth := (h (by rw [hs]; intro hc; cases hc)).1
    have hblock : cb.shouldBlock now = (false, cb) := by
      unfold CircuitBreaker.shouldBlock
      rw [hs]
    refine ⟨by rw [hblock], ?_, ?_, ?_⟩
    · show (cb.request now true).state = .closed
      unfold CircuitBreaker.request
      rw [hblock]
      rfl
    · show (cb.request now true).consecutiveFailures = 0
      unfold CircuitBreaker.request
      rw [hblock]
      rfl
    · show (cb.request now false).state = .opened
      unfold CircuitBreaker.request
      rw [hblock]
      show (cb.recordFailure now).state = .opened
      unfold CircuitBreaker.recordFailure
      dsimp only
      rw [if_pos (by omega)]
  · intro ok hne hclosed
    cases hstate : cb.state with
    | closed => exact absurd hstate hne
    | opened =>
        have hth := (h (by rw [hstate]; intro hc; cases hc)).1
        by_cases ht : now - cb.lastFailureTime.getD 0 > cb.timeoutMs
        · have hblock : cb.shouldBlock now =
              (false, { cb with state := .halfOpen }) := by
            unfold CircuitBreaker.shouldBlock
            rw [hstate]
            dsimp only
            rw [if_pos ht]
          cases ok with
          | true =>
              refine ⟨rfl, by rw [hblock], ?_⟩
              unfold CircuitBreaker.request
              rw [hblock]
              rfl
          | false =>
              exfalso
              unfold CircuitBreaker.request at hclosed
              rw [hblock] at hclosed
              have : ({ cb with state := CBState.halfOpen }.recordFailure
                  now).state = .opened := by
                unfold CircuitBreaker.recordFailure
                dsimp only
                rw [if_pos (by omega)]
              have hc2 : ({ cb with state := CBState.halfOpen }.recordFailure
                  now).state = CBState.closed := hclosed
              rw [this] at hc2
              cases hc2
        · have hblock : cb.shouldBlock now = (true, cb) := by
            unfold CircuitBreaker.shouldBlock
            rw [hstate]
            dsimp only
            rw [if_neg ht]
          exfalso
          unfold CircuitBreaker.request at hclosed
          rw [hblock] at hclosed
          have hrf : (cb.recordFailure now).state = .opened := by
            unfold CircuitBreaker.recordFailure
            dsimp only
            rw [if_pos (by omega)]
          have hc2 : (cb.recordFailure now).state = CBState.closed := hclosed
          rw [hrf] at hc2
          cases hc2
    | halfOpen =>
        have hth := (h (by rw [hstate]; intro hc; cases hc)).1
        have hblock : cb.shouldBlock now = (false, cb) := by
          unfold CircuitBreaker.shouldBlock
          rw [hstate]
        cases ok with
        | true =>
            refine ⟨rfl, by rw [hblock, hstate], ?_⟩
            unfold CircuitBreaker.request
            rw [hblock]
            rfl
        | false =>
            exfalso
            unfold CircuitBreaker.request at hclosed
            rw [hblock] at hclosed
            have hrf : (cb.recordFailure now).state = .opened := by
              unfold CircuitBreaker.recordFailure
              dsimp only
              rw [if_pos (by omega)]
            have hc2 : (cb.recordFailure now).state = CBState.closed := hclosed
            rw [hrf] at hc2
            cases hc2

/-- C3 (amended): for every reachable breaker state, `recordFailure`
transitions to Open exactly when the consecutive-failure count reaches
`failureThreshold` (5); `shouldBlock()` returns true iff the state is Open
and at most the cooldown (`timeoutMs = 30000`) has elapsed since the last
failure; after the cooldown has strictly elapsed the HalfOpen state admits
the one trial request, which on success closes the breaker and resets
`consecutiveFailures` to 0 and on failure reopens it; and the breaker
reaches Closed from a non-Closed state only through a successful trial
taken in HalfOpen. -/
theorem circuitBreaker_semantics (cb : CircuitBreaker)
    (l : List (Int × Bool)) (hcb : cb = CircuitBreaker.init.runRequests l)
    (now : Int) :
    ((cb.recordFailure now).state = .opened ↔
        cb.consecutiveFailures + 1 ≥ cb.failureThreshold) ∧
    ((cb.shouldBlock now).1 = true ↔
        cb.state = .opened ∧ now - cb.lastFailureTime.getD 0 ≤ cb.timeoutMs) ∧
    (cb.state = .halfOpen →
        (cb.shouldBlock now).1 = false ∧
        (cb.request now true).state = .closed ∧
        (cb.request now true).consecutiveFailures = 0 ∧
        (cb.request now false).state = .opened) ∧
    (∀ ok, cb.state ≠ .closed → (cb.request now ok).state = .closed →
        ok = true ∧ ((cb.shouldBlock now).2).state = .halfOpen ∧
        (cb.request now ok).consecutiveFailures = 0) := by
  subst hcb
  exact CircuitBreaker.semantics_aux _
    (CircuitBreaker.inv_runRequests _ l CircuitBreaker.inv_init) now

/-- C3 counterexample: after five failures at time 0 the breaker is Open
with the failure stamped at 0; at time 30000 exactly the cooldown has
elapsed, the claim ("true iff Open and less than the cooldown has
elapsed") predicts `shouldBlock` is false, but the code blocks
(`Date.now() - lastFailureTime > timeoutMs` is strict). -/
theorem shouldBlock_at_cooldown_boundary :
    ¬ ((((CircuitBreaker.init.runRequests
            (List.replicate 5 ((0 : Int), false))).shouldBlock 30000).1 = true) ↔
        ((CircuitBreaker.init.runRequests
            (List.replicate 5 ((0 : Int), false))).state = .opened ∧
          (30000 : Int) - (CircuitBreaker.init.runRequests
            (List.replicate 5 ((0 : Int), false))).lastFailureTime.getD 0 <
            (CircuitBreaker.init.runRequests
              (List.replicate 5 ((0 : Int), false))).timeoutMs)) := by
  decide

/-- C3 witness: the amended properties at the freshly initialized breaker
and time 0. -/
theorem circuitBreaker_semantics_witness :
    ((CircuitBreaker.init.recordFailure 0).state = .opened ↔
        CircuitBreaker.init.consecutiveFailures + 1 ≥
          CircuitBreaker.init.failureThreshold) ∧
    ((CircuitBreaker.init.shouldBlock 0).1 = true ↔
        CircuitBreaker.init.state = .opened ∧
          (0 : Int) - CircuitBreaker.init.lastFailureTime.getD 0 ≤
            CircuitBreaker.init.timeoutMs) ∧
    (CircuitBreaker.init.state = .halfOpen →
        (CircuitBreaker.init.shouldBlock 0).1 = false ∧
        (CircuitBreaker.init.request 0 true).state = .closed ∧
        (CircuitBreaker.init.request 0 true).consecutiveFailures = 0 ∧
        (CircuitBreaker.init.request 0 false).state = .opened) ∧
    (∀ ok, CircuitBreaker.init.state ≠ .closed →
        (CircuitBreaker.init.request 0 ok).state = .closed →
        ok = true ∧ ((CircuitBreaker.init.shouldBlock 0).2).state = .halfOpen ∧
        (CircuitBreaker.init.request 0 ok).consecutiveFailures = 0) :=
  circuitBreaker_semantics CircuitBreaker.init [] rfl 0

/-- C9 (amended): `getOptimalDelay` always lies between the base delay 100
and the cap 2000; with no failures in the last 30s it is exactly the base
delay regardless of latency; with recent failures it is 2x base when no
response arrived in the last 10s, otherwise 3x base when the average recent
latency exceeds 3000ms, 2x base when it exceeds 1500ms, and the base delay
otherwise. -/
theorem getOptimalDelay_characterization (now : Int) (failures : List Int)
    (responses : List RateResponse) :
    100 ≤ getOptimalDelay now failures responses ∧
    getOptimalDelay now failures responses ≤ 2000 ∧
    (failures.filter (fun t => now - t < 30000) = [] →
        getOptimalDelay now failures responses = 100) ∧
    (failures.filter (fun t => now - t < 30000) ≠ [] →
      (responses.filter (fun r => now - r.time < 10000) = [] →
          getOptimalDelay now failures responses = 200) ∧
      (responses.filter (fun r => now - r.time < 10000) ≠ [] →
          getOptimalDelay now failures responses =
            (let recent := responses.filter (fun r => now - r.time < 10000)
             let total := (recent.map (fun r => r.responseTime)).sum
             if total > 3000 * recent.length then 300
             else if total > 1500 * recent.length then 200
             else 100))) := by
  unfold getOptimalDelay
  by_cases hf : (failures.filter (fun t => now - t < 30000)).length = 0
  · rw [if_pos hf]
    refine ⟨le_refl _, by omega, fun _ => rfl, fun hne => ?_⟩
    exact absurd (List.length_eq_zero.mp hf) hne
  · rw [if_neg hf]
    have hfne : failures.filter (fun t => now - t < 30000) ≠ [] := by
      intro hc
      exact hf (by rw [hc]; rfl)
    by_cases hr : (responses.filter (fun r => now - r.time < 10000)).length = 0
    · rw [if_pos hr]
      refine ⟨by omega, by omega, fun hc => absurd hc hfne, fun _ => ⟨fun _ => rfl, fun hrne => ?_⟩⟩
      exact absurd (List.length_eq_zero.mp hr) hrne
    · rw [if_neg hr]
      refine ⟨?_, ?_, fun hc => absurd hc hfne, fun _ => ⟨?_, fun _ => ?_⟩⟩
      · dsimp only
        split
        · exact by omega
        · split <;> omega
      · dsimp only
        split
        · exact by omega
        · split <;> omega
      · intro hc
        exact absurd hc (fun h2 => hr (by rw [h2]; rfl))
      · dsimp only
        split
        · decide
        · split
          · decide
          · rfl

/-- C9 counterexample: with no failure in the last 30s the delay is the
base 100 even though the single recent response averaged 5000ms latency
(the claim predicts 3x base = 300 whenever average latency exceeds
3000ms); and with recent failures but no recent responses the delay is the
same 200 for 1 recent failure as for 20 (the claim predicts proportional
escalation with the number of recent failures). -/
theorem getOptimalDelay_ignores_latency_without_failures :
    getOptimalDelay 100000 [] [⟨99000, 5000⟩] = 100 ∧
    (100 : Nat) ≠ 300 ∧
    getOptimalDelay 100000 [(99000 : Int)] [] = 200 ∧
    getOptimalDelay 100000 (List.replicate 20 (99000 : Int)) [] = 200 := by
  refine ⟨rfl, by decide, rfl, ?_⟩
  rfl

/-- C9 witness: the amended characterization at concrete inputs with one
recent failure and one slow recent response. -/
theorem getOptimalDelay_characterization_witness :
    getOptimalDelay 100000 [(99000 : Int)] [⟨99000, 5000⟩] = 300 ∧
    100 ≤ getOptimalDelay 100000 [(99000 : Int)] [⟨99000, 5000⟩] ∧
    getOptimalDelay 100000 [(99000 : Int)] [⟨99000, 5000⟩] ≤ 2000 := by
  have h := getOptimalDelay_characterization 100000 [(99000 : Int)]
    [⟨99000, 5000⟩]
  refine ⟨?_, h.1, h.2.1⟩
  have h2 := (h.2.2.2 (by decide)).2 (by decide)
  exact h2.trans (by decide)

theorem retryAux_ok (outcomes : Nat → Except TinifyError Bytes)
    (attempt r : Nat) (b : Bytes) (he : outcomes attempt = .ok b) :
    retryAux outcomes attempt r = (.ok b, []) := by
  cases r <;> simp [retryAux, he]

theorem retryAux_fatal (outcomes : Nat → Except TinifyError Bytes)
    (attempt r : Nat) (e : TinifyError) (he : outcomes attempt = .error e)
    (hf : e.fatal = true) :
    retryAux outcomes attempt r = (.error e, []) := by
  cases r <;> simp [retryAux, he, hf]

theorem retryAux_const_error (e : TinifyError) (hf : e.fatal = false)
    (r attempt : Nat) :
    retryAux (fun _ => .error e) attempt r =
      (.error e, (List.range r).map (fun i => 1000 * (attempt + i))) := by
  induction r generalizing attempt with
  | zero => simp [retryAux]
  | succ r ih =>
      have hstep : retryAux (fun _ => .error e) attempt (r + 1) =
          ((retryAux (fun _ => .error e) (attempt + 1) r).1,
            1000 * attempt :: (retryAux (fun _ => .error e) (attempt + 1) r).2) := by
        simp [retryAux, hf]
      rw [hstep, ih (attempt + 1)]
      refine Prod.ext rfl ?_
      show 1000 * attempt :: (List.range r).map (fun i => 1000 * (attempt + 1 + i)) = _
      rw [List.range_succ_eq_map, List.map_cons, List.map_map]
      refine congrArg₂ _ (by omega) ?_
      refine List.map_congr_left ?_
      intro i _
      show 1000 * (attempt + 1 + i) = 1000 * (attempt + (i + 1))
      omega

theorem retryAux_success_after (i : Nat) :
    ∀ (outcomes : Nat → Except TinifyError Bytes) (attempt r : Nat) (b : Bytes),
      i ≤ r →
      (∀ j < i, ∃ e, outcomes (attempt + j) = .error e ∧ e.fatal = false) →
      outcomes (attempt + i) = .ok b →
      retryAux outcomes attempt r =
        (.ok b, (List.range i).map (fun j => 1000 * (attempt + j))) := by
  induction i with
  | zero =>
      intro outcomes attempt r b _ _ hok
      simpa using retryAux_ok outcomes attempt r b (by simpa using hok)
  | succ i ih =>
      intro outcomes attempt r b hir htrans hok
      obtain ⟨r, rfl⟩ : ∃ r2, r = r2 + 1 := ⟨r - 1, by omega⟩
      obtain ⟨e, he, hef⟩ := htrans 0 (by omega)
      rw [Nat.add_zero] at he
      have hstep : retryAux outcomes attempt (r + 1) =
          ((retryAux outcomes (attempt + 1) r).1,
            1000 * attempt :: (retryAux outcomes (attempt + 1) r).2) := by
        simp [retryAux, he, hef]
      rw [hstep, ih outcomes (attempt + 1) r b (by omega)
        (fun j hj => by
          obtain ⟨e2, he2, hef2⟩ := htrans (j + 1) (by omega)
          exact ⟨e2, by rw [show attempt + 1 + j = attempt + (j + 1) by omega]; exact he2, hef2⟩)
        (by rw [show attempt + 1 + i = attempt + (i + 1) by omega]; exact hok)]
      refine Prod.ext rfl ?_
      show 1000 * attempt :: (List.range i).map (fun j => 1000 * (attempt + 1 + j)) = _
      rw [List.range_succ_eq_map, List.map_cons, List.map_map]
      refine congrArg₂ _ (by omega) ?_
      refine List.map_congr_left ?_
      intro j _
      show 1000 * (attempt + 1 + j) = 1000 * (attempt + (j + 1))
      omega

theorem retryAux_fatal_after (i : Nat) :
    ∀ (outcomes : Nat → Except TinifyError Bytes) (attempt r : Nat)
      (e : TinifyError),
      i ≤ r →
      (∀ j < i, ∃ e2, outcomes (attempt + j) = .error e2 ∧ e2.fatal = false) →
      outcomes (attempt + i) = .error e → e.fatal = true →
      retryAux outcomes attempt r =
        (.error e, (List.range i).map (fun j => 1000 * (attempt + j))) := by
  induction i with
  | zero =>
      intro outcomes attempt r e _ _ he hf
      simpa using retryAux_fatal outcomes attempt r e (by simpa using he) hf
  | succ i ih =>
      intro outcomes attempt r e hir htrans he hf
      obtain ⟨r, rfl⟩ : ∃ r2, r = r2 + 1 := ⟨r - 1, by omega⟩
      obtain ⟨e0, he0, hef0⟩ := htrans 0 (by omega)
      rw [Nat.add_zero] at he0
      have hstep : retryAux outcomes attempt (r + 1) =
          ((retryAux outcomes (attempt + 1) r).1,
            1000 * attempt :: (retryAux outcomes (attempt + 1) r).2) := by
        simp [retryAux, he0, hef0]
      rw [hstep, ih outcomes (attempt + 1) r e (by omega)
        (fun j hj => by
          obtain ⟨e2, he2, hef2⟩ := htrans (j + 1) (by omega)
          exact ⟨e2, by rw [show attempt + 1 + j = attempt + (j + 1) by omega]; exact he2, hef2⟩)
        (by rw [show attempt + 1 + i = attempt + (i + 1) by omega]; exact he) hf]
      refine Prod.ext rfl ?_
      show 1000 * attempt :: (List.range i).map (fun j => 1000 * (attempt + 1 + j)) = _
      rw [List.range_succ_eq_map, List.map_cons, List.map_map]
      refine congrArg₂ _ (by omega) ?_
      refine List.map_congr_left ?_
      intro j _
      show 1000 * (attempt + 1 + j) = 1000 * (attempt + (j + 1))
      omega

/-- C8 (amended): `compressWithRetry` rethrows an account or client error
immediately at whichever attempt it occurs, with no further delay; it
retries every other error up to `maxRetries` attempts, awaiting a linearly
growing delay of `1000 * attempt` ms between attempts (1000, 2000, 3000,
... — not exponential), rethrows the last error once attempts are
exhausted, and stops at the first successful attempt. -/
theorem compressWithRetry_semantics :
    (∀ (outcomes : Nat → Except TinifyError Bytes) (m i : Nat)
        (e : TinifyError),
        i + 1 ≤ m →
        (∀ j < i, ∃ e2, outcomes (1 + j) = .error e2 ∧ e2.fatal = false) →
        outcomes (1 + i) = .error e → e.fatal = true →
        compressWithRetry outcomes m =
          some (.error e, (List.range i).map (fun j => 1000 * (1 + j)))) ∧
    (∀ (e : TinifyError), e.fatal = false → ∀ m, 1 ≤ m →
        compressWithRetry (fun _ => .error e) m =
          some (.error e, (List.range (m - 1)).map (fun i => 1000 * (1 + i)))) ∧
    (∀ (outcomes : Nat → Except TinifyError Bytes) (m i : Nat) (b : Bytes),
        i + 1 ≤ m →
        (∀ j < i, ∃ e2, outcomes (1 + j) = .error e2 ∧ e2.fatal = false) →
        outcomes (1 + i) = .ok b →
        compressWithRetry outcomes m =
          some (.ok b, (List.range i).map (fun j => 1000 * (1 + j)))) := by
  refine ⟨?_, ?_, ?_⟩
  · intro outcomes m i e him htrans he hf
    unfold compressWithRetry
    rw [if_neg (by omega)]
    rw [retryAux_fatal_after i outcomes 1 (m - 1) e (by omega) htrans he hf]
  · intro e hf m hm
    unfold compressWithRetry
    rw [if_neg (by omega)]
    rw [retryAux_const_error e hf (m - 1) 1]
  · intro outcomes m i b him htrans hok
    unfold compressWithRetry
    rw [if_neg (by omega)]
    rw [retryAux_success_after i outcomes 1 (m - 1) b (by omega) htrans hok]

/-- C8 counterexample: with transient (server) errors on every attempt and
`maxRetries = 4` the awaited delays are 1000, 2000, 3000 ms — a linear,
not geometric, progression: the middle delay squared differs from the
product of its neighbours. -/
theorem compressWithRetry_backoff_not_exponential :
    compressWithRetry (fun _ => .error (.server "ServerError")) 4 =
      some (.error (.server "ServerError"), [1000, 2000, 3000]) ∧
    ¬ ((2000 : Nat) * 2000 = 1000 * 3000) :=
  ⟨rfl, by decide⟩

/-- C8 witness: an account error on attempt 1 is not retried; three
all-transient attempts exhaust with delays 1000 and 2000; a success on
attempt 2 after one transient failure stops with delay 1000. -/
theorem compressWithRetry_semantics_witness :
    compressWithRetry (fun _ => .error (.account "AccountError")) 3 =
      some (.error (.account "AccountError"), []) ∧
    compressWithRetry (fun _ => .error (.connection "ConnectionError")) 3 =
      some (.error (.connection "ConnectionError"), [1000, 2000]) ∧
    compressWithRetry
        (fun n => if n ≤ 1 then .error (.server "ServerError") else .ok [1]) 3 =
      some (.ok [1], [1000]) := by
  refine ⟨?_, ?_, ?_⟩
  · exact compressWithRetry_semantics.1 _ 3 0 _ (by omega)
      (fun j hj => absurd hj (by omega)) rfl rfl
  · exact compressWithRetry_semantics.2.1 (.connection "ConnectionError") rfl 3
      (by omega)
  · exact compressWithRetry_semantics.2.2 _ 3 1 [1] (by omega)
      (fun j hj => ⟨.server "ServerError", by interval_cases j; simp, rfl⟩)
      rfl

theorem recordedNames_processFileQuota (r : BatchResults) (f : String)
    (o : Except (String × String) Nat) :
    (recordedNames (processFileQuota r f o)).Perm (f :: recordedNames r) := by
  unfold processFileQuota recordedNames
  split
  · simp only [List.map_append, List.map_cons, List.map_nil]
    rw [← List.append_assoc]
    exact List.perm_append_singleton f _
  · match o with
    | .ok c =>
        simp only [List.map_append, List.map_cons, List.map_nil]
        rw [List.append_assoc]
        exact List.perm_middle
    | .error me =>
        simp only [List.map_append, List.map_cons, List.map_nil]
        rw [← List.append_assoc]
        exact List.perm_append_singleton f _

theorem recordedNames_processBatchFrom (files : List String) :
    ∀ (r : BatchResults) (outcomes : String → Except (String × String) Nat),
      (recordedNames (processBatchFrom r files outcomes)).Perm
        (recordedNames r ++ files) := by
  induction files with
  | nil => intro r outcomes; simp [processBatchFrom]
  | cons f fs ih =>
      intro r outcomes
      have h1 := ih (processFileQuota r f (outcomes f)) outcomes
      have h2 := (recordedNames_processFileQuota r f (outcomes f)).append_right fs
      have h3 : (f :: recordedNames r ++ fs).Perm (recordedNames r ++ f :: fs) :=
        List.perm_middle.symm
      exact (h1.trans h2).trans h3

/-- C4 (amended): with a single credential of remaining capacity
`k = 500 - usedCount`, exactly the first `k` valid files in dispatch order
are handed to the batch processor; the remaining `n - k` files are not
dispatched and receive no record of any kind in the results (they are
dropped with only a console warning); every dispatched file is recorded
exactly once, as a success or as a failure; and a file whose dispatch trips
the in-run quota guard (`finalCompressionCount >= 500`) is recorded as a
generic failure named `'Error'`, not as a skip. -/
theorem quota_dispatch_semantics :
    (∀ (validFiles : List String) (used : Nat), used ≤ 500 →
        filesToProcess validFiles used = validFiles.take (500 - used)) ∧
    (∀ (validFiles : List String) (used : Nat)
        (outcomes : String → Except (String × String) Nat),
        (recordedNames (compressDirRun validFiles used outcomes)).Perm
          (filesToProcess validFiles used)) ∧
    (∀ (r : BatchResults) (f : String) (o : Except (String × String) Nat),
        r.finalCompressionCount ≥ 500 →
        processFileQuota r f o =
          { r with failed := r.failed ++ [(f, "Error")] }) := by
  refine ⟨?_, ?_, ?_⟩
  · intro validFiles used hle
    unfold filesToProcess jsSlice0
    rw [if_pos (by omega)]
    congr 1
    omega
  · intro validFiles used outcomes
    exact recordedNames_processBatchFrom (filesToProcess validFiles used)
      { successful := [], failed := [], finalCompressionCount := used } outcomes
  · intro r f o h
    unfold processFileQuota
    rw [if_pos h]

/-- C4 counterexample: two valid files against a credential with 499 used
(capacity 1): the first file succeeds, and the second is absent from the
results entirely — neither a skipped record with reason QuotaExceeded nor
any other record. With 498 used a file dispatched after the count reaches
500 is recorded as a generic failure named 'Error'. -/
theorem quota_overflow_silently_dropped :
    (compressDirRun ["a.png", "b.png"] 499 (fun _ => .ok 500)).successful
        = [("a.png", 500)] ∧
    (compressDirRun ["a.png", "b.png"] 499 (fun _ => .ok 500)).failed = [] ∧
    (compressDirRun ["a.png", "b.png"] 498 (fun _ => .ok 500)).failed
        = [("b.png", "Error")] :=
  ⟨rfl, rfl, rfl⟩

/-- C4 witness: the amended dispatch semantics at a concrete three-file
batch with capacity 1, and the quota-guard recording at a concrete full
credential. -/
theorem quota_dispatch_semantics_witness :
    filesToProcess ["a.png", "b.png", "c.png"] 499 = ["a.png"] ∧
    (recordedNames (compressDirRun ["a.png", "b.png", "c.png"] 499
        (fun _ => .ok 500))).Perm
      (filesToProcess ["a.png", "b.png", "c.png"] 499) ∧
    processFileQuota ⟨[], [], 500⟩ "d.png" (.ok 501) =
      ⟨[], [("d.png", "Error")], 500⟩ := by
  refine ⟨?_, ?_, ?_⟩
  · exact (quota_dispatch_semantics.1 ["a.png", "b.png", "c.png"] 499
      (by omega)).trans rfl
  · exact quota_dispatch_semantics.2.1 _ _ _
  · exact quota_dispatch_semantics.2.2 ⟨[], [], 500⟩ "d.png" (.ok 501)
      (by decide)

theorem pickFirstMax_spec (l : List ApiKeyEntry) :
    (pickFirstMax l = none ↔ l = []) ∧
    (∀ k, pickFirstMax l = some k →
      (∀ x ∈ l, remaining x ≤ remaining k) ∧
      ∃ l1 l2, l = l1 ++ k :: l2 ∧ ∀ x ∈ l1, remaining x < remaining k) := by
  induction l with
  | nil =>
      refine ⟨by simp [pickFirstMax], ?_⟩
      intro k hk
      simp [pickFirstMax] at hk
  | cons a ks ih =>
      cases hp : pickFirstMax ks with
      | none =>
          have hks : ks = [] := ih.1.mp hp
          subst hks
          refine ⟨by simp [pickFirstMax], ?_⟩
          intro k hk
          have hak : a = k := by
            have hone : pickFirstMax [a] = some a := rfl
            rw [hone] at hk
            exact Option.some.inj hk
          subst hak
          refine ⟨?_, [], [], rfl, by simp⟩
          intro x hx
          have hxa : x = a := by simpa using hx
          subst hxa
          exact le_refl _
      | some b =>
          obtain ⟨hbound, l1, l2, hdecomp, hstrict⟩ := ih.2 b hp
          have hstep : pickFirstMax (a :: ks) =
              if remaining b > remaining a then some b else some a := by
            show (match pickFirstMax ks with
                  | none => some a
                  | some b => if remaining b > remaining a then some b
                      else some a) = _
            rw [hp]
          by_cases hgt : remaining b > remaining a
          · rw [if_pos hgt] at hstep
            refine ⟨by rw [hstep]; simp, ?_⟩
            intro k hk
            have hbk : b = k := Option.some.inj ((hstep.symm.trans hk))
            subst hbk
            refine ⟨?_, a :: l1, l2, by rw [hdecomp]; simp, ?_⟩
            · intro x hx
              rcases List.mem_cons.mp hx with h1 | h2
              · subst h1; exact le_of_lt hgt
              · exact hbound x h2
            · intro x hx
              rcases List.mem_cons.mp hx with h1 | h2
              · subst h1; exact hgt
              · exact hstrict x h2
          · rw [if_neg hgt] at hstep
            refine ⟨by rw [hstep]; simp, ?_⟩
            intro k hk
            have hak : a = k := Option.some.inj ((hstep.symm.trans hk))
            subst hak
            refine ⟨?_, [], ks, rfl, by simp⟩
            intro x hx
            rcases List.mem_cons.mp hx with h1 | h2
            · subst h1; exact le_refl _
            · exact le_trans (hbound x h2) (not_lt.mp hgt)

/-- C6 (amended): after the monthly reset pass, `selectBestApiKey` returns
`null` exactly when no credential passes the filter `remaining >=
requiredUnits && status !== 'limit_reached'`; otherwise it returns a
credential that passes that filter — note credentials with status
`'invalid'` are NOT excluded — with the greatest remaining capacity
(`500 - compressions_used`), the earliest-registered among ties (stable
sort, deterministic). -/
theorem selectBestApiKey_spec (keys : List ApiKeyEntry)
    (nowMonth nowYear required : Nat) :
    (selectBestApiKey keys nowMonth nowYear required = none ↔
        (resetAllKeysIfNeeded nowMonth nowYear keys).filter
          (qualifies required) = []) ∧
    (∀ k, selectBestApiKey keys nowMonth nowYear required = some k →
        qualifies required k = true ∧
        k ∈ (resetAllKeysIfNeeded nowMonth nowYear keys).filter
          (qualifies required) ∧
        (∀ x ∈ (resetAllKeysIfNeeded nowMonth nowYear keys).filter
            (qualifies required), remaining x ≤ remaining k) ∧
        ∃ l1 l2,
          (resetAllKeysIfNeeded nowMonth nowYear keys).filter
              (qualifies required) = l1 ++ k :: l2 ∧
          ∀ x ∈ l1, remaining x < remaining k) := by
  have h := pickFirstMax_spec
    ((resetAllKeysIfNeeded nowMonth nowYear keys).filter (qualifies required))
  refine ⟨h.1, ?_⟩
  intro k hk
  obtain ⟨hbound, l1, l2, hdecomp, hstrict⟩ := h.2 k hk
  have hmem : k ∈ (resetAllKeysIfNeeded nowMonth nowYear keys).filter
      (qualifies required) := by
    rw [hdecomp]
    exact List.mem_append_right l1 (List.mem_cons_self k l2)
  exact ⟨(List.mem_filter.mp hmem).2, hmem, hbound, l1, l2, hdecomp, hstrict⟩

/-- C6 counterexample: a credential with status `'invalid'` and full
remaining capacity is selected — the filter only excludes
`'limit_reached'` — where the claim ("neither exhausted nor invalid",
null when none qualify) requires `null` here. -/
theorem selectBestApiKey_returns_invalid_key :
    selectBestApiKey [⟨"bad", 0, "invalid", 7, 2025⟩] 7 2025 1 =
      some ⟨"bad", 0, "invalid", 7, 2025⟩ ∧
    (⟨"bad", 0, "invalid", 7, 2025⟩ : ApiKeyEntry).status = "invalid" :=
  ⟨rfl, rfl⟩

/-- C6 witness: between an active key with 200 remaining and one with 400
remaining, the 400-remaining key is returned and satisfies the filter. -/
theorem selectBestApiKey_spec_witness :
    selectBestApiKey [⟨"a", 300, "active", 7, 2025⟩,
        ⟨"b", 100, "active", 7, 2025⟩] 7 2025 1 =
      some ⟨"b", 100, "active", 7, 2025⟩ ∧
    qualifies 1 ⟨"b", 100, "active", 7, 2025⟩ = true ∧
    ⟨"b", 100, "active", 7, 2025⟩ ∈
      (resetAllKeysIfNeeded 7 2025 [⟨"a", 300, "active", 7, 2025⟩,
        ⟨"b", 100, "active", 7, 2025⟩]).filter (qualifies 1) := by
  have h := (selectBestApiKey_spec [⟨"a", 300, "active", 7, 2025⟩,
      ⟨"b", 100, "active", 7, 2025⟩] 7 2025 1).2
    ⟨"b", 100, "active", 7, 2025⟩ rfl
  exact ⟨rfl, h.1, h.2.1⟩

theorem dirSet_same (d : BackupDir) (p : String) (v : Option FileMeta) :
    dirSet d p v p = v := by simp [dirSet]

theorem dirSet_other (d : BackupDir) (p q : String) (v : Option FileMeta)
    (h : q ≠ p) : dirSet d p v q = d q := by simp [dirSet, h]

theorem versionedName_ne_fileName (base ext ts : String) :
    base ++ "_" ++ ts ++ ext ≠ base ++ ext := by
  intro h
  have hlen := congrArg String.length h
  rw [String.length_append, String.length_append, String.length_append,
    String.length_append] at hlen
  have h1 : ("_").length = 1 := rfl
  omega

/-- C7: when a backup with the same size and modification time already
exists at the backup path, `backupFile` reports skipped and leaves the
backup directory exactly as it was (no new file, no error); when a backup
exists with different size or modification time, a backup is created at
the timestamp-suffixed versioned name — distinct from the existing
backup's name, which keeps its old contents untouched; when no backup
exists one is created at the plain name. -/
theorem backupFile_idempotent (dir : BackupDir) (srcMeta : FileMeta)
    (base ext ts : String) :
    (∀ m, dir (base ++ ext) = some m →
      (srcMeta.size = m.size ∧ srcMeta.mtime = m.mtime →
        (backupFile dir srcMeta base ext ts).1.skipped = true ∧
        (backupFile dir srcMeta base ext ts).2 = dir) ∧
      (¬(srcMeta.size = m.size ∧ srcMeta.mtime = m.mtime) →
        (backupFile dir srcMeta base ext ts).1.versioned = true ∧
        (backupFile dir srcMeta base ext ts).1.path =
          base ++ "_" ++ ts ++ ext ∧
        base ++ "_" ++ ts ++ ext ≠ base ++ ext ∧
        (backupFile dir srcMeta base ext ts).2 (base ++ ext) =
          dir (base ++ ext) ∧
        (backupFile dir srcMeta base ext ts).2 (base ++ "_" ++ ts ++ ext) =
          some srcMeta)) ∧
    (dir (base ++ ext) = none →
      (backupFile dir srcMeta base ext ts).1.created = true ∧
      (backupFile dir srcMeta base ext ts).2 (base ++ ext) = some srcMeta) := by
  constructor
  · intro m hm
    constructor
    · intro hsame
      unfold backupFile
      dsimp only
      rw [hm]
      dsimp only
      rw [if_pos hsame]
      exact ⟨rfl, rfl⟩
    · intro hdiff
      unfold backupFile
      dsimp only
      rw [hm]
      dsimp only
      rw [if_neg hdiff]
      refine ⟨rfl, rfl, versionedName_ne_fileName base ext ts, ?_, ?_⟩
      · exact (dirSet_other dir (base ++ "_" ++ ts ++ ext) (base ++ ext)
          (some srcMeta) (versionedName_ne_fileName base ext ts).symm).trans hm
      · exact dirSet_same dir (base ++ "_" ++ ts ++ ext) (some srcMeta)
  · intro hnone
    unfold backupFile
    dsimp only
    rw [hnone]
    dsimp only
    exact ⟨rfl, dirSet_same dir (base ++ ext) (some srcMeta)⟩

/-- C7 witness: the three branches at concrete directories: an identical
backup is skipped with the directory unchanged; a differing backup gets a
versioned copy while the plain backup keeps its old metadata; a missing
backup gets created. -/
theorem backupFile_idempotent_witness :
    (backupFile (fun n => if n = "img.png" then some ⟨10, 5⟩ else none)
        ⟨10, 5⟩ "img" ".png" "2025-07-01T00-00-00-000Z").1.skipped = true ∧
    (backupFile (fun n => if n = "img.png" then some ⟨10, 5⟩ else none)
        ⟨10, 5⟩ "img" ".png" "2025-07-01T00-00-00-000Z").2 =
      (fun n => if n = "img.png" then some ⟨10, 5⟩ else none) ∧
    (backupFile (fun n => if n = "img.png" then some ⟨10, 5⟩ else none)
        ⟨11, 5⟩ "img" ".png" "2025-07-01T00-00-00-000Z").1.versioned = true ∧
    (backupFile (fun n => if n = "img.png" then some ⟨10, 5⟩ else none)
        ⟨11, 5⟩ "img" ".png" "2025-07-01T00-00-00-000Z").2 "img.png" =
      some ⟨10, 5⟩ ∧
    (backupFile (fun _ => none) ⟨10, 5⟩ "img" ".png"
        "2025-07-01T00-00-00-000Z").1.created = true := by
  have h := backupFile_idempotent
    (fun n => if n = "img.png" then some ⟨10, 5⟩ else none)
    ⟨10, 5⟩ "img" ".png" "2025-07-01T00-00-00-000Z"
  have h2 := backupFile_idempotent
    (fun n => if n = "img.png" then some ⟨10, 5⟩ else none)
    ⟨11, 5⟩ "img" ".png" "2025-07-01T00-00-00-000Z"
  have h3 := backupFile_idempotent (fun _ => none) ⟨10, 5⟩ "img" ".png"
    "2025-07-01T00-00-00-000Z"
  have hm : (fun n => if n = "img.png" then some (⟨10, 5⟩ : FileMeta)
      else none) ("img" ++ ".png") = some ⟨10, 5⟩ := by simp
  have ha := (h.1 ⟨10, 5⟩ hm).1 ⟨rfl, rfl⟩
  have hb := (h2.1 ⟨10, 5⟩ hm).2 (by simp)
  have hc := h3.2 rfl
  refine ⟨ha.1, ha.2, hb.1, ?_, hc.1⟩
  have hfin := hb.2.2.2.1
  rw [show ("img" ++ ".png" : String) = "img.png" from rfl] at hfin
  exact hfin

/-- C10: when both `options.resize` and `options.convert` are set, the
request pipeline sent to the service contains the format conversion but not
the resize — `source.convert(...)` is chained to the original `source`,
discarding the previously built resize chain. -/
theorem resize_discarded_when_converting (options : CompressOptions)
    (spec fmt : String)
    (hr : options.resize = some spec) (hc : options.convert = some fmt) :
    (buildPipeline options).hasResize = false ∧
    (buildPipeline options).hasConvert = true := by
  unfold buildPipeline
  rw [hr, hc]
  cases options.preserveMetadata <;>
    simp [Pipeline.hasResize, Pipeline.hasConvert]

/-- C10 witness: a concrete option set with both resize and convert. -/
theorem resize_discarded_when_converting_witness :
    (buildPipeline ⟨some "width300", some "webp", none, true⟩).hasResize = false ∧
    (buildPipeline ⟨some "width300", some "webp", none, true⟩).hasConvert = true :=
  resize_discarded_when_converting ⟨some "width300", some "webp", none, true⟩
    "width300" "webp" rfl rfl

/-- C1: for every `compressFile` run, if the transform or the temp write
fails (the function throws) the source file at `inputPath` is unchanged and
the temp file at `inputPath ++ ".tmp"` is removed; on success, the full
result sits at the temp path — with the source still intact — strictly
before the source path is overwritten by the atomic move. -/
theorem compressFile_source_safety (fs : FS) (inputPath : String)
    (outcome : ToFileOutcome) :
    (∀ msg, (compressFileFS fs inputPath outcome).result = .error msg →
        (compressFileFS fs inputPath outcome).final inputPath = fs inputPath ∧
        (compressFileFS fs inputPath outcome).final (inputPath ++ ".tmp") = none) ∧
    (∀ result, (compressFileFS fs inputPath outcome).result = .ok result →
        (compressFileFS fs inputPath outcome).afterTempWrite (inputPath ++ ".tmp")
            = some result ∧
        (compressFileFS fs inputPath outcome).afterTempWrite inputPath = fs inputPath ∧
        (compressFileFS fs inputPath outcome).final inputPath = some result ∧
        (compressFileFS fs inputPath outcome).final (inputPath ++ ".tmp") = none) := by
  constructor
  · intro msg hres
    cases outcome with
    | ok result => simp [compressFileFS] at hres
    | err message residue =>
        cases residue with
        | none =>
            refine ⟨?_, ?_⟩
            · simp only [compressFileFS]
              exact fsSet_other fs (inputPath ++ ".tmp") inputPath none
                (input_ne_temp inputPath)
            · simp only [compressFileFS]
              exact fsSet_same _ _ _
        | some b =>
            refine ⟨?_, ?_⟩
            · simp only [compressFileFS]
              rw [fsSet_other _ _ _ _ (input_ne_temp inputPath)]
              exact fsSet_other fs (inputPath ++ ".tmp") inputPath (some b)
                (input_ne_temp inputPath)
            · simp only [compressFileFS]
              exact fsSet_same _ _ _
  · intro result hres
    cases outcome with
    | err message residue => simp [compressFileFS] at hres
    | ok r =>
        have hr : r = result := by
          simpa [compressFileFS] using hres
        subst hr
        refine ⟨?_, ?_, ?_, ?_⟩
        · simp only [compressFileFS]
          exact fsSet_same _ _ _
        · simp only [compressFileFS]
          exact fsSet_other fs (inputPath ++ ".tmp") inputPath (some r)
            (input_ne_temp inputPath)
        · simp only [compressFileFS]
          rw [fsSet_other _ _ _ _ (input_ne_temp inputPath), fsSet_same]
        · simp only [compressFileFS]
          exact fsSet_same _ _ _

/-- C1 witness: a failing transform on a concrete one-file file system
leaves the source bytes in place and no temp file. -/
theorem compressFile_source_safety_witness :
    (compressFileFS (fun p => if p = "img.png" then some [1, 2, 3] else none)
        "img.png" (.err "ServerError" (some [9]))).final "img.png" = some [1, 2, 3] ∧
    (compressFileFS (fun p => if p = "img.png" then some [1, 2, 3] else none)
        "img.png" (.err "ServerError" (some [9]))).final "img.png.tmp" = none := by
  have h := (compressFile_source_safety
      (fun p => if p = "img.png" then some [1, 2, 3] else none)
      "img.png" (.err "ServerError" (some [9]))).1 "ServerError" rfl
  refine ⟨h.1.trans (by simp), h.2⟩

/-- C5: evaluating `compressFile` at a format-converting success shows the
divergence from the claim — the result is installed at the source path
`photo.png` itself (which therefore still exists in the working directory)
and no `photo.webp` destination is created; the install destination is
`inputPath` unconditionally (src/compression/index.js line 52). -/
theorem convert_installs_at_source_path :
    (compressFileFS (fun p => if p = "photo.png" then some [1, 2, 3] else none)
        "photo.png" (.ok [7, 7])).final "photo.png" = some [7, 7] ∧
    (compressFileFS (fun p => if p = "photo.png" then some [1, 2, 3] else none)
        "photo.png" (.ok [7, 7])).final "photo.webp" = none ∧
    (compressFileFS (fun p => if p = "photo.png" then some [1, 2, 3] else none)
        "photo.png" (.ok [7, 7])).result = .ok [7, 7] := by
  refine ⟨?_, ?_, rfl⟩
  · simp [compressFileFS, fsSet]
  · simp [compressFileFS, fsSet]

end TinyPNG
